import Mathlib

/-!
Verification development for the virtual-environment manager in
src/venvman.py (class VenvManager).  The Python methods are embedded as
pure Lean functions: subprocess outcomes become explicit oracle functions
(String to Bool), raised exceptions become Except values, and subprocess
invocations are recorded in explicit trace fields.
-/

/-- Embeds the text test used by Python string membership, `needle in blob`:
some suffix of the blob starts with the needle. -/
def charsContain (blob needle : List Char) : Bool :=
  (List.range (blob.length + 1)).any (fun i => (blob.drop i).take needle.length == needle)

/-- Python substring containment on strings: `needle in blob`. -/
def strContains (blob needle : String) : Bool :=
  charsContain blob.toList needle.toList

/-- Embeds `line.replace("\n", "")` from src/venvman.py line 157: removes every
newline character. -/
def stripNl (s : String) : String :=
  ⟨s.toList.filter (fun c => c != '\n')⟩

/-- Embeds `s.split("==")[0]`: the text before the first occurrence of two
equality signs, the whole text when there is none. -/
def takeBeforeEqEq : List Char → List Char
  | [] => []
  | '=' :: '=' :: _ => []
  | c :: rest => c :: takeBeforeEqEq rest

/-- Embeds `line.split("==")[0]` on strings (bare package name). -/
def bareName (s : String) : String :=
  ⟨takeBeforeEqEq s.toList⟩

/-- Embeds Python `s.split("\n")`: split at every newline, keeping empty pieces. -/
def splitNlChars : List Char → List (List Char)
  | [] => [[]]
  | c :: rest =>
    if c = '\n' then [] :: splitNlChars rest
    else
      match splitNlChars rest with
      | [] => [[c]]
      | hd :: tl => (c :: hd) :: tl

/-- Embeds Python `s.split("\n")` on strings. -/
def splitNl (s : String) : List String :=
  (splitNlChars s.toList).map (fun l => (⟨l⟩ : String))

/-- Embeds Python `file.readlines()`: split into lines, each keeping its
trailing newline character; a last line without newline is kept as is. -/
def readlinesChars : List Char → List (List Char)
  | [] => []
  | c :: rest =>
    if c = '\n' then ['\n'] :: readlinesChars rest
    else
      match readlinesChars rest with
      | [] => [[c]]
      | hd :: tl => (c :: hd) :: tl

/-- Embeds Python `file.readlines()` on strings. -/
def readlinesOf (s : String) : List String :=
  (readlinesChars s.toList).map (fun l => (⟨l⟩ : String))

/-- Embeds Python list membership `x in l` for lists of strings. -/
def hasPath : List String → String → Bool
  | [], _ => false
  | q :: rest, p => p == q || hasPath rest p

/-- Trace of one `install_requirements` run over the manifest lines:
the pip install invocations made, and the returned list or the raised error. -/
structure InstallTrace where
  installCalls : List String
  result : Except String (List String)

/-- Embeds the loop of `VenvManager.install_requirements` (src/venvman.py
lines 152 to 167).  Arguments: the `pip freeze` stdout blob, an oracle giving
each `pip install` invocation outcome, and the manifest lines as read by
`readlines`.  Each line has its newline characters removed (line 157), is
skipped when contained in the blob as a substring (line 158), and is otherwise
installed through `subprocess.check_call` (line 164), which raises on a
non-zero exit status and thereby aborts the loop. -/
def install_requirementsRun (freeze : String) (ok : String → Bool) :
    List String → InstallTrace
  | [] => ⟨[], Except.ok []⟩
  | line :: rest =>
    let package := stripNl line
    if strContains freeze package then
      install_requirementsRun freeze ok rest
    else if ok package then
      let t := install_requirementsRun freeze ok rest
      ⟨package :: t.installCalls, t.result.map (fun l => package :: l)⟩
    else
      ⟨[package], Except.error package⟩

/-- Trace of a full `install_requirements` call, including the guard on
`requirements_file` (src/venvman.py lines 139 to 141): number of `pip freeze`
invocations, the `pip install` invocations, whether the manifest file was
opened, and the returned value (`none` embeds the Python `return` of None). -/
structure InstallFullTrace where
  freezeCalls : Nat
  installCalls : List String
  manifestRead : Bool
  result : Option (Except String (List String))

/-- Embeds `VenvManager.install_requirements` (src/venvman.py lines 132 to 167)
whole: with no requirements file configured it returns None having invoked
nothing; otherwise it fetches the freeze blob, reads the manifest file and
runs the install loop. -/
def install_requirementsFull (requirements_file : Option String) (freeze : String)
    (ok : String → Bool) : InstallFullTrace :=
  match requirements_file with
  | none => ⟨0, [], false, none⟩
  | some content =>
    let t := install_requirementsRun freeze ok (readlinesOf content)
    ⟨1, t.installCalls, true, some t.result⟩

/-- Trace of one `update_requirements` run over the manifest lines: the
upgrade-install invocations, the show invocations, and the returned list or
the raised error. -/
structure UpdateTrace where
  upgradeCalls : List String
  showCalls : List String
  result : Except String (List String)

/-- Embeds the loop of `VenvManager.update_requirements` (src/venvman.py
lines 318 to 340).  Arguments: an oracle for each `pip install --upgrade`
outcome (consulted and discarded, since the call uses `subprocess.run` with
`check=False`, line 331), an oracle for each `pip show` outcome
(`subprocess.check_call`, line 338, raising on failure), and the manifest
lines.  Each line is reduced to the text before the first `==` (line 324);
results equal to the empty string or to a lone newline are skipped
(line 327). -/
def update_requirementsRun (u s : String → Bool) : List String → UpdateTrace
  | [] => ⟨[], [], Except.ok []⟩
  | line :: rest =>
    let package := bareName line
    if package == "" || package == "\n" then
      update_requirementsRun u s rest
    else
      let _ := u package
      if s package then
        let t := update_requirementsRun u s rest
        ⟨package :: t.upgradeCalls, package :: t.showCalls,
          t.result.map (fun l => package :: l)⟩
      else
        ⟨[package], [package], Except.error package⟩

/-- Trace of a full `update_requirements` call, including the guard on
`requirements_file` (src/venvman.py lines 311 to 313). -/
structure UpdateFullTrace where
  upgradeCalls : List String
  showCalls : List String
  manifestRead : Bool
  result : Option (Except String (List String))

/-- Embeds `VenvManager.update_requirements` (src/venvman.py lines 304 to 340)
whole: with no requirements file configured it returns None having invoked
nothing; otherwise it reads the manifest file and runs the upgrade loop. -/
def update_requirementsFull (requirements_file : Option String)
    (u s : String → Bool) : UpdateFullTrace :=
  match requirements_file with
  | none => ⟨[], [], false, none⟩
  | some content =>
    let t := update_requirementsRun u s (readlinesOf content)
    ⟨t.upgradeCalls, t.showCalls, true, some t.result⟩

/-- The bare names the update loop attempts: text before the first `==` of
each manifest line, dropping empty and lone-newline results. -/
def processedNames (lines : List String) : List String :=
  (lines.map bareName).filter (fun p => !(p == "" || p == "\n"))

/-- Embeds the body of `VenvManager.freeze_requirements` (src/venvman.py
lines 232 to 257): the lines written back to the manifest file.  The freeze
blob is split at newlines (line 238); the tracked names are the text before
the first `==` of each non-empty line read from the old manifest file
(line 243, `readlines` keeping trailing newline characters); a freeze line is
written exactly when its bare name is non-empty, is not a lone newline, and
occurs among the tracked names (lines 248 to 257).  Each kept line is written
followed by one newline character; the returned list holds the kept lines. -/
def freezeWrite (content freezeOut : String) : List String :=
  let packages := ((readlinesOf content).filter (fun l => !(l == ""))).map bareName
  (splitNl freezeOut).filter (fun fp =>
    let package := bareName fp
    !(package == "" || package == "\n" || !(hasPath packages package)))

/-- Trace of a full `freeze_requirements` call: number of `pip freeze`
invocations, and the manifest file content written (`none` embeds leaving the
file untouched behind the guard). -/
structure FreezeTrace where
  freezeCalls : Nat
  written : Option (List String)

/-- Embeds `VenvManager.freeze_requirements` (src/venvman.py lines 224 to 257)
whole.  The exit status of the freeze subprocess is received but never
consulted: `subprocess.run` is called without `check` and only `.stdout` is
read (lines 233 to 237). -/
def freeze_requirementsFull (requirements_file : Option String)
    (freezeOut : String) (_freezeStatus : Int) : FreezeTrace :=
  match requirements_file with
  | none => ⟨0, none⟩
  | some content => ⟨1, some (freezeWrite content freezeOut)⟩

/-- Trace of an `install_package` call: the pip install invocations and the
outcome (`check_call` raises on failure). -/
structure PackageTrace where
  installCalls : List String
  result : Except String Unit

/-- Embeds the argument handed to pip by `VenvManager.install_package`
(src/venvman.py lines 120 to 122): `package==version` when a truthy version is
given, else the bare package. -/
def pipSpec (package : String) (version : Option String) : String :=
  match version with
  | some v => if v == "" then package else package ++ "==" ++ v
  | none => package

/-- Embeds `VenvManager.install_package` (src/venvman.py lines 111 to 122).
The method reads no manifest and has no guard on `requirements_file` (the
field is carried to record that it is ignored): it always invokes
`subprocess.check_call((pip, "install", package))`. -/
def install_packageRun (_requirements_file : Option String) (ok : String → Bool)
    (package : String) (version : Option String) : PackageTrace :=
  ⟨[pipSpec package version],
    if ok (pipSpec package version) then Except.ok ()
    else Except.error (pipSpec package version)⟩

/-- State seen by `VenvManager.initialize`: the set of existing file-system
paths, symlink resolution (`Path.resolve`), the path of the running
interpreter (`sys.executable`), and the process-wide VIRTUAL_ENV marker
(`os.environ`). -/
structure World where
  pathOk : List String
  resolve : String → String
  sysExec : String
  marker : Option String

/-- File-system actions `initialize` could take on the environment root. -/
inductive EnvAction where
  | deleteTree : String → EnvAction
  | createEnv : String → EnvAction
deriving DecidableEq

/-- The interpreter executable inside the environment root
(`context.env_exe`). -/
def envExePath (envDir : String) : String := envDir ++ "/bin/python"

/-- Embeds `VenvManager.pip_path` (src/venvman.py lines 27 to 29). -/
def pipPath (envDir : String) : String := envDir ++ "/bin/pip"

/-- Embeds the validity test of `VenvManager.initialize` (src/venvman.py
lines 82 to 94): the resolved base executable exists, the resolved
environment executable exists, the resolved running interpreter equals one of
the two, and the pip path exists.  `baseExec` stands for
`context.executable`. -/
def isValidEnv (w : World) (envDir baseExec : String) : Bool :=
  hasPath w.pathOk (w.resolve baseExec)
  && hasPath w.pathOk (w.resolve (envExePath envDir))
  && (w.resolve w.sysExec == w.resolve baseExec
      || w.resolve w.sysExec == w.resolve (envExePath envDir))
  && hasPath w.pathOk (pipPath envDir)

/-- Embeds `VenvManager.post_setup` (src/venvman.py lines 259 to 266): sets
the process-wide VIRTUAL_ENV marker to the environment root path string. -/
def post_setup (w : World) (envDirStr : String) : World :=
  { w with marker := some envDirStr }

/-- Modelled from the spec: the runtime environment-builder primitive invoked
by `VenvManager.initialize` line 105 (`EnvBuilder.create`; the class is
constructed with `clear=False`, src/venvman.py lines 49 to 57, so nothing is
deleted and the environment is built in place).  Per spec section 4.1 it
provisions the interpreter and the package manager under the root, and it
invokes the overridden `post_setup` hook, which registers the marker. -/
def createEnvRun (w : World) (envDir : String) : World :=
  post_setup
    { w with pathOk := envDir :: envExePath envDir :: pipPath envDir :: w.pathOk }
    envDir

/-- Outcome of one `initialize` call: the new world, the file-system actions
taken on the environment root, and the returned path. -/
structure InitResult where
  world : World
  actions : List EnvAction
  ret : String

/-- Embeds `VenvManager.initialize` (src/venvman.py lines 70 to 109), the
reconcile operation.  If the validity test passes, the marker is set
(line 96) and nothing else happens; otherwise the existing-directory case
only logs (lines 100 to 101, no deletion) and the environment is created in
place (line 105).  Either way the environment root path is returned. -/
def reconcileRun (w : World) (envDir baseExec : String) : InitResult :=
  if isValidEnv w envDir baseExec then
    ⟨{ w with marker := some envDir }, [], envDir⟩
  else
    ⟨createEnvRun w envDir, [EnvAction.createEnv envDir], envDir⟩

/-- A world holding an environment root whose interior executables are
missing, next to the running interpreter: the validity test fails while the
root directory exists. -/
def badWorld : World :=
  ⟨["venv", "/usr/bin/python3"], id, "/usr/bin/python3", none⟩

/-- A world holding only the running interpreter: no environment root yet. -/
def idemWorld : World :=
  ⟨["/usr/bin/python3"], id, "/usr/bin/python3", none⟩

/-- Membership in an extended path list is preserved. -/
theorem hasPath_cons_of (l : List String) (p q : String) (h : hasPath l p = true) :
    hasPath (q :: l) p = true := by
  simp [hasPath, h]

/-- The validity test never reads the marker. -/
theorem isValidEnv_marker (w : World) (m : Option String) (envDir baseExec : String) :
    isValidEnv { w with marker := m } envDir baseExec = isValidEnv w envDir baseExec := rfl

/-- After the in-place build, the validity test passes, provided the running
interpreter resolves to the existing base executable and the built
environment executable resolves to itself. -/
theorem isValidEnv_createEnvRun (w : World) (envDir baseExec : String)
    (hres : w.resolve w.sysExec = w.resolve baseExec)
    (hbase : hasPath w.pathOk (w.resolve baseExec) = true)
    (henv : w.resolve (envExePath envDir) = envExePath envDir) :
    isValidEnv (createEnvRun w envDir) envDir baseExec = true := by
  simp [isValidEnv, createEnvRun, post_setup, hasPath, hres, henv, hbase]

/-- A valid world makes `reconcileRun` take the verified branch. -/
theorem reconcileRun_of_valid (w : World) (envDir baseExec : String)
    (h : isValidEnv w envDir baseExec = true) :
    reconcileRun w envDir baseExec = ⟨{ w with marker := some envDir }, [], envDir⟩ := by
  simp [reconcileRun, h]

/-- An invalid world makes `reconcileRun` build in place. -/
theorem reconcileRun_of_invalid (w : World) (envDir baseExec : String)
    (h : isValidEnv w envDir baseExec = false) :
    reconcileRun w envDir baseExec
      = ⟨createEnvRun w envDir, [EnvAction.createEnv envDir], envDir⟩ := by
  simp [reconcileRun, h]

/-- After any `reconcileRun` call under the resolution side conditions, the
validity test passes on the resulting world. -/
theorem reconcileRun_valid_after (w : World) (envDir baseExec : String)
    (hres : w.resolve w.sysExec = w.resolve baseExec)
    (hbase : hasPath w.pathOk (w.resolve baseExec) = true)
    (henv : w.resolve (envExePath envDir) = envExePath envDir) :
    isValidEnv (reconcileRun w envDir baseExec).world envDir baseExec = true := by
  by_cases h : isValidEnv w envDir baseExec = true
  · rw [reconcileRun_of_valid w envDir baseExec h]
    exact h
  · rw [reconcileRun_of_invalid w envDir baseExec (by simpa using h)]
    exact isValidEnv_createEnvRun w envDir baseExec hres hbase henv

/-- C9: after every reconcile (initialize) call, whether the environment was
verified as-is or rebuilt, the process-wide VIRTUAL_ENV marker holds the
environment root path string (src/venvman.py line 96 in the verified branch,
and the `post_setup` hook, lines 259 to 266, in the rebuild branch). -/
theorem reconcile_sets_marker (w : World) (envDir baseExec : String) :
    (reconcileRun w envDir baseExec).world.marker = some envDir := by
  unfold reconcileRun
  split
  · rfl
  · rfl

/-- C3: on the claim input, freeze_requirements writes an EMPTY manifest
rather than the claimed `alpha==1.0` then `gamma==0.9`: the tracked names are
taken from `readlines` output with the trailing newline kept, so the bare
snapshot name `alpha` never equals the tracked entry retaining its newline.
The second conjunct exhibits the retained newlines; the third shows the claim
also fails without a trailing newline in the old manifest (only
`gamma==0.9` survives). -/
theorem freeze_requirements_newline_bug :
    freeze_requirementsFull (some "alpha\ngamma\n") "alpha==1.0\nbeta==3.0\ngamma==0.9\n" 0
      = ⟨1, some []⟩
    ∧ ((readlinesOf "alpha\ngamma\n").filter (fun l => !(l == ""))).map bareName
      = ["alpha\n", "gamma\n"]
    ∧ freezeWrite "alpha\ngamma" "alpha==1.0\nbeta==3.0\ngamma==0.9\n" = ["gamma==0.9"] := by
  refine ⟨rfl, rfl, rfl⟩

/-- C10: freeze_requirements never consults the exit status of the freeze
subprocess, only its captured stdout (first conjunct: the run is unchanged
under any two statuses); and whenever the freeze output text is empty, the
manifest file is rewritten to empty content, erasing every previously
tracked entry, with no error (second conjunct, for every old manifest
content). -/
theorem freeze_requirements_ignores_status (requirements_file : Option String)
    (freezeOut content : String) (s1 s2 : Int) :
    freeze_requirementsFull requirements_file freezeOut s1
      = freeze_requirementsFull requirements_file freezeOut s2
    ∧ freeze_requirementsFull (some content) "" s1 = ⟨1, some []⟩ := by
  refine ⟨rfl, rfl⟩

/-- C7 counterexample: with no manifest path configured, install_package still
invokes the package manager (src/venvman.py lines 111 to 122 contain no guard
on `requirements_file`), refuting the claim that all four sync operations are
no-ops in that case. -/
theorem install_package_unguarded_cex :
    (install_packageRun none (fun _ => true) "alpha" none).installCalls = ["alpha"] := rfl

/-- C7 amended: with no manifest path configured, the three manifest-driven
operations (install_requirements, update_requirements, freeze_requirements)
are no-ops returning None without invoking the package manager or touching
the file system; install_package has no such guard and always issues exactly
one package-manager install invocation for its argument. -/
theorem sync_noop_without_manifest (freezeOut : String) (ok u s : String → Bool)
    (st : Int) (p : String) (v : Option String) :
    install_requirementsFull none freezeOut ok = ⟨0, [], false, none⟩
    ∧ update_requirementsFull none u s = ⟨[], [], false, none⟩
    ∧ freeze_requirementsFull none freezeOut st = ⟨0, none⟩
    ∧ (install_packageRun none ok p v).installCalls = [pipSpec p v] := by
  refine ⟨rfl, rfl, rfl, rfl⟩

/-- C2 counterexample: with an empty snapshot blob and an install oracle that
fails on `aaa`, the run over lines `aaa` and `bbb` raises (Except.error) at
`aaa` and never attempts `bbb`, refuting the claim that a failed individual
install is skipped and the operation continues and returns the installed
set. -/
theorem install_requirements_failure_aborts_cex :
    (install_requirementsRun "" (fun p => !(p == "aaa")) ["aaa\n", "bbb\n"]).result
      = Except.error "aaa"
    ∧ (install_requirementsRun "" (fun p => !(p == "aaa")) ["aaa\n", "bbb\n"]).installCalls
      = ["aaa"] := by
  refine ⟨rfl, rfl⟩

/-- C4 counterexample: a concrete world where the validity test fails while
the environment root exists; reconcile (initialize) performs only the
in-place create and no recursive deletion (the EnvBuilder base class is
constructed with `clear=False`, src/venvman.py line 51, and no deletion code
exists), refuting the claim that the directory is deleted before
rebuilding. -/
theorem reconcile_no_delete_cex :
    isValidEnv badWorld "venv" "/usr/bin/python3" = false
    ∧ hasPath badWorld.pathOk "venv" = true
    ∧ (reconcileRun badWorld "venv" "/usr/bin/python3").actions
      = [EnvAction.createEnv "venv"]
    ∧ EnvAction.deleteTree "venv" ∉ (reconcileRun badWorld "venv" "/usr/bin/python3").actions := by
  refine ⟨by decide, by decide, by decide, by decide⟩

/-- C4 amended: for every root directory whose validity test fails while the
directory exists, reconcile (initialize) does NOT delete the directory; it
re-creates the environment in place over the existing directory (the builder
is configured with `clear=False`), and afterwards the executable paths exist
and validity holds, provided the running interpreter resolves to the existing
base executable and the built environment executable resolves to itself. -/
theorem reconcile_recreates_in_place (w : World) (envDir baseExec : String)
    (hinv : isValidEnv w envDir baseExec = false)
    (hex : hasPath w.pathOk envDir = true)
    (hres : w.resolve w.sysExec = w.resolve baseExec)
    (hbase : hasPath w.pathOk (w.resolve baseExec) = true)
    (henv : w.resolve (envExePath envDir) = envExePath envDir) :
    (reconcileRun w envDir baseExec).actions = [EnvAction.createEnv envDir]
    ∧ (∀ p, EnvAction.deleteTree p ∉ (reconcileRun w envDir baseExec).actions)
    ∧ hasPath (reconcileRun w envDir baseExec).world.pathOk (envExePath envDir) = true
    ∧ hasPath (reconcileRun w envDir baseExec).world.pathOk (pipPath envDir) = true
    ∧ isValidEnv (reconcileRun w envDir baseExec).world envDir baseExec = true := by
  have hrun := reconcileRun_of_invalid w envDir baseExec hinv
  rw [hrun]
  refine ⟨rfl, ?_, ?_, ?_, isValidEnv_createEnvRun w envDir baseExec hres hbase henv⟩
  · intro p
    simp
  · simp [createEnvRun, post_setup, hasPath]
  · simp [createEnvRun, post_setup, hasPath]

/-- C4 witness: the amended theorem applied to the concrete invalid world. -/
theorem reconcile_recreates_in_place_witness :
    (reconcileRun badWorld "venv" "/usr/bin/python3").actions
      = [EnvAction.createEnv "venv"]
    ∧ isValidEnv (reconcileRun badWorld "venv" "/usr/bin/python3").world
        "venv" "/usr/bin/python3" = true := by
  have h := reconcile_recreates_in_place badWorld "venv" "/usr/bin/python3"
    (by decide) (by decide) rfl (by decide) rfl
  exact ⟨h.1, h.2.2.2.2⟩

/-- C8: reconcile (initialize) is idempotent under the resolution side
conditions: validity holds after the first call and after the second, and the
second call takes no file-system action on the environment root (no deletion,
no re-creation); it only re-registers the marker. -/
theorem reconcile_idempotent (w : World) (envDir baseExec : String)
    (hres : w.resolve w.sysExec = w.resolve baseExec)
    (hbase : hasPath w.pathOk (w.resolve baseExec) = true)
    (henv : w.resolve (envExePath envDir) = envExePath envDir) :
    isValidEnv (reconcileRun w envDir baseExec).world envDir baseExec = true
    ∧ isValidEnv (reconcileRun (reconcileRun w envDir baseExec).world envDir baseExec).world
        envDir baseExec = true
    ∧ (reconcileRun (reconcileRun w envDir baseExec).world envDir baseExec).actions = []
    ∧ (reconcileRun (reconcileRun w envDir baseExec).world envDir baseExec).world
      = { (reconcileRun w envDir baseExec).world with marker := some envDir } := by
  have h1 := reconcileRun_valid_after w envDir baseExec hres hbase henv
  have h2 := reconcileRun_of_valid (reconcileRun w envDir baseExec).world envDir baseExec h1
  rw [h2]
  exact ⟨h1, h1, rfl, rfl⟩

/-- C8 witness: the idempotence theorem applied to the concrete fresh world,
whose first call builds the environment and whose second call verifies it. -/
theorem reconcile_idempotent_witness :
    isValidEnv (reconcileRun (reconcileRun idemWorld "venv" "/usr/bin/python3").world
        "venv" "/usr/bin/python3").world "venv" "/usr/bin/python3" = true
    ∧ (reconcileRun (reconcileRun idemWorld "venv" "/usr/bin/python3").world
        "venv" "/usr/bin/python3").actions = [] := by
  have h := reconcile_idempotent idemWorld "venv" "/usr/bin/python3" rfl (by decide) rfl
  exact ⟨h.2.1, h.2.2.1⟩

/-- C1: install_requirements decides that a manifest line is already
satisfied by testing the line (its newline characters removed) for substring
containment in the single freeze blob, accepting substring false positives
(`foo` is matched by a blob holding `foobar==1.0`, third conjunct); when every
install invocation succeeds it installs exactly the lines not so contained
and returns them, in order (first and second conjuncts); on manifest lines
`alpha` and `beta==2.0` with a blob holding `alpha==1.0` and no `beta`, it
invokes install only for `beta==2.0` and returns exactly that list (fourth
conjunct). -/
theorem install_requirements_substring_filter (freeze : String) (ok : String → Bool)
    (manifest : List String) (hok : ∀ p, ok p = true) :
    (install_requirementsRun freeze ok manifest).result
      = Except.ok ((manifest.map stripNl).filter (fun p => !(strContains freeze p)))
    ∧ (install_requirementsRun freeze ok manifest).installCalls
      = (manifest.map stripNl).filter (fun p => !(strContains freeze p))
    ∧ strContains "foobar==1.0\n" "foo" = true
    ∧ install_requirementsRun "alpha==1.0\n" ok ["alpha\n", "beta==2.0\n"]
      = ⟨["beta==2.0"], Except.ok ["beta==2.0"]⟩ := by
  have main : ∀ ms : List String,
      install_requirementsRun freeze ok ms
        = ⟨(ms.map stripNl).filter (fun p => !(strContains freeze p)),
            Except.ok ((ms.map stripNl).filter (fun p => !(strContains freeze p)))⟩ := by
    intro ms
    induction ms with
    | nil => rfl
    | cons line rest ih =>
      cases hc : strContains freeze (stripNl line) with
      | true => simp [install_requirementsRun, hc, ih]
      | false => simp [install_requirementsRun, hc, hok, ih, Except.map]
  refine ⟨by rw [main], by rw [main], by decide, ?_⟩
  have h1 : strContains "alpha==1.0\n" (stripNl "alpha\n") = true := by decide
  have h2 : strContains "alpha==1.0\n" (stripNl "beta==2.0\n") = false := by decide
  have h2a : strContains "alpha==1.0\n" "beta==2.0" = false := by decide
  have h3 : stripNl "beta==2.0\n" = "beta==2.0" := rfl
  simp [install_requirementsRun, h1, h2, h2a, h3, hok, Except.map]

/-- C1 witness: the theorem applied to the concrete manifest and blob of the
claim with an all-succeeding install oracle. -/
theorem install_requirements_substring_filter_witness :
    install_requirementsRun "alpha==1.0\n" (fun _ => true) ["alpha\n", "beta==2.0\n"]
      = ⟨["beta==2.0"], Except.ok ["beta==2.0"]⟩ :=
  (install_requirements_substring_filter "alpha==1.0\n" (fun _ => true)
    ["alpha\n", "beta==2.0\n"] (fun _ => rfl)).2.2.2

/-- C2 amended: if the install invocation for one manifest line fails, the
raised error propagates out of install_requirements: the operation aborts at
the first failing line (every earlier line being satisfied or installed), the
remaining lines are never attempted (the invocation trace equals the one of
the manifest cut right after the failing line), and no list is returned. -/
theorem install_requirements_failure_aborts (freeze : String) (ok : String → Bool)
    (line : String) (rest : List String)
    (hc : strContains freeze (stripNl line) = false)
    (hf : ok (stripNl line) = false) :
    ∀ pre : List String,
      (∀ l ∈ pre, strContains freeze (stripNl l) = true ∨ ok (stripNl l) = true) →
      (install_requirementsRun freeze ok (pre ++ line :: rest)).result
        = Except.error (stripNl line)
      ∧ (install_requirementsRun freeze ok (pre ++ line :: rest)).installCalls
        = (install_requirementsRun freeze ok (pre ++ [line])).installCalls := by
  intro pre
  induction pre with
  | nil =>
    intro _
    constructor
    · simp [install_requirementsRun, hc, hf]
    · simp [install_requirementsRun, hc, hf]
  | cons l pre ih =>
    intro hpre
    have hl := hpre l (by simp)
    have ih2 := ih (fun x hx => hpre x (by simp [hx]))
    rcases hl with h1 | h1
    · constructor
      · simpa [install_requirementsRun, h1] using ih2.1
      · simpa [install_requirementsRun, h1] using ih2.2
    · cases hcl : strContains freeze (stripNl l) with
      | true =>
        constructor
        · simpa [install_requirementsRun, hcl] using ih2.1
        · simpa [install_requirementsRun, hcl] using ih2.2
      | false =>
        constructor
        · simp [install_requirementsRun, hcl, h1, ih2.1, Except.map]
        · simp [install_requirementsRun, hcl, h1, ih2.2]

/-- C2 witness: the amended theorem applied to a concrete manifest whose
middle line fails to install. -/
theorem install_requirements_failure_aborts_witness :
    (install_requirementsRun "ccc==1.0\n" (fun p => !(p == "ddd"))
        (["ccc\n"] ++ "ddd\n" :: ["eee\n"])).result
      = Except.error "ddd"
    ∧ (install_requirementsRun "ccc==1.0\n" (fun p => !(p == "ddd"))
        (["ccc\n"] ++ "ddd\n" :: ["eee\n"])).installCalls
      = (install_requirementsRun "ccc==1.0\n" (fun p => !(p == "ddd"))
        (["ccc\n"] ++ ["ddd\n"])).installCalls := by
  have h := install_requirements_failure_aborts "ccc==1.0\n" (fun p => !(p == "ddd"))
    "ddd\n" ["eee\n"] (by decide) (by decide) ["ccc\n"] (by decide)
  exact ⟨h.1.trans rfl, h.2⟩

/-- C5: in update_requirements the outcome of each upgrade-install invocation
is swallowed, processing continuing unconditionally (the whole run, traces
included, is unchanged under any two upgrade oracles: first conjunct), while
a failing `pip show` verification for a processed bare name makes the
operation propagate an error (second conjunct). -/
theorem update_requirements_error_policy (lines : List String) (u1 u2 s : String → Bool) :
    update_requirementsRun u1 s lines = update_requirementsRun u2 s lines
    ∧ ((∃ p ∈ processedNames lines, s p = false) →
        ∃ e, (update_requirementsRun u1 s lines).result = Except.error e) := by
  constructor
  · induction lines with
    | nil => rfl
    | cons line rest ih =>
      cases hskip : (bareName line == "" || bareName line == "\n") with
      | true => simp [update_requirementsRun, hskip, ih]
      | false =>
        cases hs : s (bareName line) with
        | true => simp [update_requirementsRun, hskip, hs, ih]
        | false => simp [update_requirementsRun, hskip, hs]
  · induction lines with
    | nil =>
      intro h
      obtain ⟨p, hp, _⟩ := h
      simp [processedNames] at hp
    | cons line rest ih =>
      intro h
      obtain ⟨p, hp, hsp⟩ := h
      cases hskip : (bareName line == "" || bareName line == "\n") with
      | true =>
        have hproc : processedNames (line :: rest) = processedNames rest := by
          simp only [processedNames, List.map_cons, List.filter_cons, hskip]
          simp
        rw [hproc] at hp
        obtain ⟨e, he⟩ := ih ⟨p, hp, hsp⟩
        exact ⟨e, by simp [update_requirementsRun, hskip, he]⟩
      | false =>
        cases hs : s (bareName line) with
        | false =>
          exact ⟨bareName line, by simp [update_requirementsRun, hskip, hs]⟩
        | true =>
          have hproc : processedNames (line :: rest)
              = bareName line :: processedNames rest := by
            simp only [processedNames, List.map_cons, List.filter_cons, hskip]
            simp
          rw [hproc] at hp
          rcases List.mem_cons.mp hp with h1 | h1
          · subst h1
            rw [hs] at hsp
            exact absurd hsp (by simp)
          · obtain ⟨e, he⟩ := ih ⟨p, h1, hsp⟩
            exact ⟨e, by simp [update_requirementsRun, hskip, hs, he, Except.map]⟩

/-- C5 witness: the theorem applied to a concrete manifest whose second bare
name fails verification, under two distinct upgrade oracles. -/
theorem update_requirements_error_policy_witness :
    update_requirementsRun (fun _ => true) (fun p => !(p == "bad")) ["good==1\n", "bad==2\n"]
      = update_requirementsRun (fun _ => false) (fun p => !(p == "bad")) ["good==1\n", "bad==2\n"]
    ∧ ∃ e, (update_requirementsRun (fun _ => true) (fun p => !(p == "bad"))
        ["good==1\n", "bad==2\n"]).result = Except.error e := by
  have h := update_requirements_error_policy ["good==1\n", "bad==2\n"]
    (fun _ => true) (fun _ => false) (fun p => !(p == "bad"))
  exact ⟨h.1, h.2 ⟨"bad", by decide, by decide⟩⟩

/-- C6: in update_requirements the name passed to the upgrade-install
invocation and to the show verification is the same (first conjunct) and is
always the bare name of a manifest line, the text before the first `==`, with
empty and lone-newline results skipped (second conjunct); a successfully
returned list is exactly the list of attempted bare names (third conjunct);
on the manifest line `alpha==1.0` the upgrade-install is invoked for the bare
name `alpha` whatever the oracles say (fourth conjunct), and if the show
verification of `alpha` succeeds then `alpha` is in the returned list (fifth
conjunct). -/
theorem update_requirements_bare_names (u s : String → Bool) (lines : List String) :
    (update_requirementsRun u s lines).showCalls
      = (update_requirementsRun u s lines).upgradeCalls
    ∧ (∀ p, p ∈ (update_requirementsRun u s lines).upgradeCalls →
        ∃ line, line ∈ lines ∧ p = bareName line ∧ p ≠ "" ∧ p ≠ "\n")
    ∧ (∀ l, (update_requirementsRun u s lines).result = Except.ok l →
        l = (update_requirementsRun u s lines).upgradeCalls)
    ∧ (update_requirementsRun u s ["alpha==1.0"]).upgradeCalls = ["alpha"]
    ∧ (s "alpha" = true →
        update_requirementsRun u s ["alpha==1.0"]
          = ⟨["alpha"], ["alpha"], Except.ok ["alpha"]⟩) := by
  have hb : bareName "alpha==1.0" = "alpha" := rfl
  have hsk : (("alpha" : String) == "" || ("alpha" : String) == "\n") = false := by decide
  refine ⟨?_, ?_, ?_, ?_, ?_⟩
  · induction lines with
    | nil => rfl
    | cons line rest ih =>
      cases hskip : (bareName line == "" || bareName line == "\n") with
      | true => simp [update_requirementsRun, hskip, ih]
      | false =>
        cases hs : s (bareName line) with
        | true => simp [update_requirementsRun, hskip, hs, ih]
        | false => simp [update_requirementsRun, hskip, hs]
  · induction lines with
    | nil =>
      intro p hp
      simp [update_requirementsRun] at hp
    | cons line rest ih =>
      intro p hp
      cases hskip : (bareName line == "" || bareName line == "\n") with
      | true =>
        rw [show update_requirementsRun u s (line :: rest) = update_requirementsRun u s rest
          from by simp [update_requirementsRun, hskip]] at hp
        obtain ⟨l0, hl0, he⟩ := ih p hp
        exact ⟨l0, List.mem_cons_of_mem line hl0, he⟩
      | false =>
        have hne : bareName line ≠ "" ∧ bareName line ≠ "\n" := by
          simpa using hskip
        cases hs : s (bareName line) with
        | true =>
          have hcalls : (update_requirementsRun u s (line :: rest)).upgradeCalls
              = bareName line :: (update_requirementsRun u s rest).upgradeCalls := by
            simp [update_requirementsRun, hskip, hs]
          rw [hcalls] at hp
          rcases List.mem_cons.mp hp with h1 | h1
          · exact ⟨line, List.mem_cons_self line rest, h1, h1 ▸ hne.1, h1 ▸ hne.2⟩
          · obtain ⟨l0, hl0, he⟩ := ih p h1
            exact ⟨l0, List.mem_cons_of_mem line hl0, he⟩
        | false =>
          have hcalls : (update_requirementsRun u s (line :: rest)).upgradeCalls
              = [bareName line] := by
            simp [update_requirementsRun, hskip, hs]
          rw [hcalls] at hp
          rcases List.mem_cons.mp hp with h1 | h1
          · exact ⟨line, List.mem_cons_self line rest, h1, h1 ▸ hne.1, h1 ▸ hne.2⟩
          · exact absurd h1 (List.not_mem_nil p)
  · induction lines with
    | nil =>
      intro l hl
      simp [update_requirementsRun] at hl
      simp [update_requirementsRun, hl]
    | cons line rest ih =>
      intro l hl
      cases hskip : (bareName line == "" || bareName line == "\n") with
      | true =>
        rw [show update_requirementsRun u s (line :: rest) = update_requirementsRun u s rest
          from by simp [update_requirementsRun, hskip]] at hl ⊢
        exact ih l hl
      | false =>
        cases hs : s (bareName line) with
        | true =>
          have hrun : update_requirementsRun u s (line :: rest)
              = ⟨bareName line :: (update_requirementsRun u s rest).upgradeCalls,
                  bareName line :: (update_requirementsRun u s rest).showCalls,
                  (update_requirementsRun u s rest).result.map
                    (fun l => bareName line :: l)⟩ := by
            simp [update_requirementsRun, hskip, hs]
          rw [hrun] at hl ⊢
          cases hr : (update_requirementsRun u s rest).result with
          | error e => rw [hr] at hl; exact absurd hl (by simp [Except.map])
          | ok a =>
            rw [hr] at hl
            simp only [Except.map] at hl
            have hla : l = bareName line :: a := by
              cases hl
              rfl
            rw [hla, ih a hr]
        | false =>
          have hrun : update_requirementsRun u s (line :: rest)
              = ⟨[bareName line], [bareName line], Except.error (bareName line)⟩ := by
            simp [update_requirementsRun, hskip, hs]
          rw [hrun] at hl
          exact absurd hl (by simp)
  · cases hs : s "alpha" with
    | true => simp [update_requirementsRun, hb, hsk, hs]
    | false => simp [update_requirementsRun, hb, hsk, hs]
  · intro hs
    simp [update_requirementsRun, hb, hsk, hs, Except.map]

/-- C6 witness: the theorem applied to the concrete one-line manifest of the
claim with succeeding oracles. -/
theorem update_requirements_bare_names_witness :
    update_requirementsRun (fun _ => true) (fun _ => true) ["alpha==1.0"]
      = ⟨["alpha"], ["alpha"], Except.ok ["alpha"]⟩ :=
  (update_requirements_bare_names (fun _ => true) (fun _ => true) ["alpha==1.0"]).2.2.2.2 rfl
